import Mathlib

/-!
# Clawdpredict platform — verification of the scoring, ranking and API routes

A shallow embedding, in Lean, of the core logic of the Clawdpredict
prediction-market platform (a Next.js app backed by Prisma):

* `src/platform/src/lib/brier.ts` — Brier-score and accuracy helpers;
* `src/platform/src/app/api/leaderboard/route.ts` — per-agent stats and the
  ranked leaderboard;
* `src/platform/src/app/api/predictions/route.ts` — the POST handler that
  validates and upserts a forecast;
* `src/platform/src/app/api/agents/profile/route.ts` — the PATCH handler for
  the payout address;
* `src/platform/src/app/api/markets/[slug]/route.ts` — the market-detail
  average probability;
* the EV/Kelly calculator of the market-predictor skill (its script is not
  among the source files, so it is modelled from the spec).

JavaScript numbers are modelled by `ℚ` (every literal in the code, 0.25, 0.5,
10000, …, is exactly representable, and the handful of arithmetic operations
performed never need rounding at the precision the properties are stated at);
`Math.round` is `jsRound` below.  Database rows are lists of structures;
`prisma` calls become list operations on them.
-/

namespace Clawdpredict

/-- `Math.round(x)`: JavaScript rounds half toward positive infinity. -/
def jsRound (x : ℚ) : ℤ := ⌊x + 1/2⌋

/-! ## `src/platform/src/lib/brier.ts` -/

/-- An element of the `{ pYes, resolvedYes }` arrays that the brier helpers
take (built in the leaderboard route from a prediction joined with its
market's `resolvedOutcome`). -/
structure ScoredPrediction where
  pYes : ℚ
  resolvedYes : Bool
deriving DecidableEq, Repr

/-- `calculateBrierContribution` of brier.ts:
`(pYes - (resolvedYes ? 1 : 0)) ** 2`. -/
def calculateBrierContribution (pYes : ℚ) (resolvedYes : Bool) : ℚ :=
  let outcome : ℚ := if resolvedYes then 1 else 0
  (pYes - outcome) ^ 2

/-- `calculateAverageBrier` of brier.ts: `0.25` on an empty array, otherwise
the `reduce`-accumulated total divided by the length. -/
def calculateAverageBrier (predictions : List ScoredPrediction) : ℚ :=
  if predictions.length = 0 then 1/4
  else
    (predictions.foldl (fun sum p => sum + calculateBrierContribution p.pYes p.resolvedYes) 0)
      / predictions.length

/-- `calculateAccuracy` of brier.ts: `0` on an empty array, otherwise the
fraction of entries with `(pYes >= 0.5) === resolvedYes`. -/
def calculateAccuracy (predictions : List ScoredPrediction) : ℚ :=
  if predictions.length = 0 then 0
  else
    ((predictions.filter (fun p => decide ((1:ℚ)/2 ≤ p.pYes) == p.resolvedYes)).length : ℚ)
      / predictions.length

/-! ## `src/platform/src/app/api/leaderboard/route.ts` -/

/-- One prediction of an agent as the leaderboard query sees it: its `pYes`
and the referenced market's `resolvedOutcome` (`null` when unresolved). -/
structure PredictionJoin where
  pYes : ℚ
  resolvedOutcome : Option String
deriving DecidableEq, Repr

/-- An agent row with its included predictions, the input to the leaderboard
computation. -/
structure AgentRow where
  id : String
  name : String
  predictions : List PredictionJoin
deriving DecidableEq, Repr

/-- The per-agent record the leaderboard route builds (`AgentStats` of
brier.ts). -/
structure AgentStat where
  agentId : String
  agentName : String
  brierScore : ℚ
  totalPredictions : ℕ
  resolvedPredictions : ℕ
  accuracy : ℚ
deriving DecidableEq, Repr

/-- `agent.predictions.filter(p => p.market.resolvedOutcome !== null)`. -/
def resolvedOf (a : AgentRow) : List PredictionJoin :=
  a.predictions.filter (fun p => p.resolvedOutcome.isSome)

/-- The `brierData` array of the route: each resolved prediction paired with
whether its market resolved `'Yes'`. -/
def brierDataOf (a : AgentRow) : List ScoredPrediction :=
  (resolvedOf a).map (fun p => ⟨p.pYes, p.resolvedOutcome == some "Yes"⟩)

/-- The route's `brierScore` before rounding: `0.25` by default, replaced by
`totalBrier / resolvedPredictions.length` when some prediction is resolved. -/
def rawBrierOf (a : AgentRow) : ℚ :=
  if 0 < (resolvedOf a).length then
    ((brierDataOf a).foldl (fun sum p => sum + calculateBrierContribution p.pYes p.resolvedYes) 0)
      / (resolvedOf a).length
  else 1/4

/-- The route's `accuracy` before rounding: `0` by default, replaced by
`calculateAccuracy(brierData)` when some prediction is resolved. -/
def rawAccuracyOf (a : AgentRow) : ℚ :=
  if 0 < (resolvedOf a).length then calculateAccuracy (brierDataOf a) else 0

/-- The stat record returned for one agent; the route publishes
`Math.round(brierScore * 10000) / 10000` and `Math.round(accuracy * 100) / 100`. -/
def agentStat (a : AgentRow) : AgentStat :=
  { agentId := a.id
    agentName := a.name
    brierScore := (jsRound (rawBrierOf a * 10000) : ℚ) / 10000
    totalPredictions := a.predictions.length
    resolvedPredictions := (resolvedOf a).length
    accuracy := (jsRound (rawAccuracyOf a * 100) : ℚ) / 100 }

/-- Fold of `+ f x` starting from `init` is `init` plus the sum of the image:
the `reduce((sum, p) => sum + …, 0)` pattern of the routes. -/
theorem foldl_add_eq_sum {α : Type} (f : α → ℚ) (l : List α) (init : ℚ) :
    l.foldl (fun sum p => sum + f p) init = init + (l.map f).sum := by
  induction l generalizing init with
  | nil => simp
  | cons a l ih => simp [ih, add_assoc]

/-- **C5** — For every agent with at least one forecast on a resolved market,
the computed Brier score equals the mean over its resolved forecasts of
`(pYes − outcomeIndicator)²` with `outcomeIndicator = 1` exactly when the
market resolved Yes; with zero resolved forecasts it is `0.25`.  The
leaderboard route's inline computation agrees with `calculateAverageBrier`. -/
theorem brierScore_is_mean_squared_error (a : AgentRow) :
    rawBrierOf a = calculateAverageBrier (brierDataOf a)
    ∧ (resolvedOf a ≠ [] →
        rawBrierOf a =
          ((brierDataOf a).map
              (fun p => (p.pYes - if p.resolvedYes then 1 else 0) ^ 2)).sum
            / (resolvedOf a).length)
    ∧ (resolvedOf a = [] → rawBrierOf a = 1/4) := by
  have hlen : (brierDataOf a).length = (resolvedOf a).length := by
    simp [brierDataOf]
  refine ⟨?_, ?_, ?_⟩
  · rw [rawBrierOf, calculateAverageBrier, hlen]
    rcases Nat.eq_zero_or_pos (resolvedOf a).length with h | h
    · simp [h]
    · simp [h, Nat.pos_iff_ne_zero.mp h]
  · intro hne
    have h : 0 < (resolvedOf a).length := List.length_pos.mpr hne
    rw [rawBrierOf, if_pos h, foldl_add_eq_sum, zero_add]
    simp [calculateBrierContribution]
  · intro hnil
    simp [rawBrierOf, hnil]

/-- **C6** — accuracy is the fraction of resolved forecasts whose direction
`pYes ≥ 0.5` holds exactly when the market resolved Yes; with zero resolved
forecasts it is `0`. -/
theorem accuracy_is_directional_fraction (a : AgentRow) :
    (resolvedOf a ≠ [] →
      rawAccuracyOf a =
        (((brierDataOf a).filter
            (fun p => decide (((1:ℚ)/2 ≤ p.pYes) ↔ p.resolvedYes = true))).length : ℚ)
          / (resolvedOf a).length)
    ∧ (resolvedOf a = [] → rawAccuracyOf a = 0) := by
  have hlen : (brierDataOf a).length = (resolvedOf a).length := by
    simp [brierDataOf]
  constructor
  · intro hne
    have h : 0 < (resolvedOf a).length := List.length_pos.mpr hne
    have hfilters : ∀ p : ScoredPrediction,
        (decide ((1:ℚ)/2 ≤ p.pYes) == p.resolvedYes)
          = decide (((1:ℚ)/2 ≤ p.pYes) ↔ p.resolvedYes = true) := by
      intro p
      cases hb : p.resolvedYes <;> by_cases hp : (1:ℚ)/2 ≤ p.pYes <;>
        simp [hb, hp, ← not_lt, decide_not]
    rw [rawAccuracyOf, if_pos h, calculateAccuracy, hlen]
    rw [if_neg (Nat.pos_iff_ne_zero.mp h)]
    rw [List.filter_congr (fun p _ => hfilters p)]
  · intro hnil
    simp [rawAccuracyOf, hnil]

/-! ## EV/Kelly calculator (market-predictor skill) -/

/-- The calculator's recommendation. -/
inductive Recommendation where
  | favorYes
  | favorNo
  | noAction
deriving DecidableEq, Repr

/-- The `EVResult` record of the calculator. -/
structure EVResult where
  edge : ℚ
  evPerUnit : ℚ
  expectedValue : ℚ
  kelly : ℚ
  recommendation : Recommendation
deriving DecidableEq, Repr

/-- Modelled from the spec: `calculate_ev` of the market-predictor skill
(`scripts/predict_engine.py` is not among the source files; only its
documentation and callers are).  Per §4.1: `edge = p_win − market_odds`;
`ev_per_unit = edge / market_odds`; `expected_value = stake × ev_per_unit`;
`kelly = edge / (1 − market_odds)` clamped to `[0, 1]`; recommendation
`favor-yes` when `edge > min_edge`, `favor-no` when `edge < −min_edge`,
otherwise `no-action`; `market_odds ∈ {0, 1}` fails with a `DomainError`
(here `none`). -/
def calculate_ev (pWin marketOdds stake minEdge : ℚ) : Option EVResult :=
  if marketOdds = 0 ∨ marketOdds = 1 then none
  else
    let edge := pWin - marketOdds
    let evPerUnit := edge / marketOdds
    let kelly := min 1 (max 0 (edge / (1 - marketOdds)))
    let recommendation :=
      if minEdge < edge then Recommendation.favorYes
      else if edge < -minEdge then Recommendation.favorNo
      else Recommendation.noAction
    some ⟨edge, evPerUnit, stake * evPerUnit, kelly, recommendation⟩

/-- **C7** — for `market_odds ∈ (0,1)` the calculator succeeds with
`edge = p_win − market_odds`; at `market_odds = p_win` the edge is `0` and
(for a non-negative caller-supplied `min_edge`) the recommendation is
no-action; the Kelly fraction always lies in `[0,1]` and a negative edge
yields `0`. -/
theorem calculate_ev_edge_and_kelly (pWin marketOdds stake minEdge : ℚ)
    (h0 : 0 < marketOdds) (h1 : marketOdds < 1) (hm : 0 ≤ minEdge) :
    ∃ r, calculate_ev pWin marketOdds stake minEdge = some r
      ∧ r.edge = pWin - marketOdds
      ∧ (marketOdds = pWin → r.edge = 0 ∧ r.recommendation = Recommendation.noAction)
      ∧ 0 ≤ r.kelly ∧ r.kelly ≤ 1
      ∧ (pWin < marketOdds → r.kelly = 0) := by
  have hne : ¬(marketOdds = 0 ∨ marketOdds = 1) := by
    push_neg
    exact ⟨ne_of_gt h0, ne_of_lt h1⟩
  refine ⟨_, by rw [calculate_ev, if_neg hne], rfl, ?_, ?_, ?_, ?_⟩
  · intro heq
    have hedge : pWin - marketOdds = 0 := by rw [heq]; ring
    refine ⟨hedge, ?_⟩
    simp only [hedge]
    rw [if_neg (by linarith), if_neg (by linarith)]
  · simp only [le_min_iff, le_max_iff]
    constructor
    · norm_num
    · left; norm_num
  · exact min_le_left _ _
  · intro hlt
    have hnum : pWin - marketOdds < 0 := by linarith
    have hden : 0 < 1 - marketOdds := by linarith
    have : (pWin - marketOdds) / (1 - marketOdds) < 0 := div_neg_of_neg_of_pos hnum hden
    simp only
    rw [max_eq_left (le_of_lt this), min_eq_right (by norm_num : (0:ℚ) ≤ 1)]

/-- Witness for C7 at `p_win = market_odds = 1/2`, `stake = 100`,
`min_edge = 1/20`. -/
theorem calculate_ev_edge_and_kelly_witness :
    ∃ r, calculate_ev (1/2) (1/2) 100 (1/20) = some r
      ∧ r.edge = 1/2 - 1/2
      ∧ ((1:ℚ)/2 = 1/2 → r.edge = 0 ∧ r.recommendation = Recommendation.noAction)
      ∧ 0 ≤ r.kelly ∧ r.kelly ≤ 1
      ∧ ((1:ℚ)/2 < 1/2 → r.kelly = 0) :=
  calculate_ev_edge_and_kelly (1/2) (1/2) 100 (1/20)
    (by norm_num) (by norm_num) (by norm_num)

/-! ## `src/platform/src/app/api/markets/[slug]/route.ts` -/

/-- The route's `avgProbability` before scaling: the mean `pYes` over all of
the market's predictions, or `0.5` when it has none. -/
def avgProbability (preds : List ℚ) : ℚ :=
  if 0 < preds.length then preds.foldl (fun sum p => sum + p) 0 / preds.length
  else 1/2

/-- The `avgProbability` field the route returns:
`Math.round(avgProbability * 100)`. -/
def avgProbabilityPercent (preds : List ℚ) : ℤ :=
  jsRound (avgProbability preds * 100)

/-- **C10** — for an existing market the returned `avgProbability` is the mean
`pYes` over all its predictions scaled by 100 and rounded (to an integer at
distance at most 1/2 from the scaled mean); with zero predictions the `0.5`
default makes it exactly `50`. -/
theorem market_avgProbability_spec (preds : List ℚ) :
    (preds ≠ [] →
      avgProbabilityPercent preds = jsRound (preds.sum / preds.length * 100)
      ∧ |(avgProbabilityPercent preds : ℚ) - preds.sum / preds.length * 100| ≤ 1/2)
    ∧ (preds = [] → avgProbabilityPercent preds = 50) := by
  constructor
  · intro hne
    have h : 0 < preds.length := List.length_pos.mpr hne
    have hmean : avgProbability preds = preds.sum / preds.length := by
      rw [avgProbability, if_pos h, foldl_add_eq_sum]
      simp
    refine ⟨by rw [avgProbabilityPercent, hmean], ?_⟩
    rw [avgProbabilityPercent, hmean]
    set x : ℚ := preds.sum / preds.length * 100 with hx
    rw [abs_le]
    constructor
    · have := Int.lt_floor_add_one (x + 1/2)
      rw [jsRound]
      linarith
    · have := Int.floor_le (x + 1/2)
      rw [jsRound]
      linarith
  · intro hnil
    simp [avgProbabilityPercent, avgProbability, hnil, jsRound]
    norm_num

/-! ## `src/platform/src/lib/auth.ts` and the database rows -/

/-- An `Agent` row: id, name, the opaque bearer token, and the optional
payout address (`evmAddress`). -/
structure AgentRec where
  id : ℕ
  name : String
  token : String
  evmAddress : Option String
deriving DecidableEq, Repr

/-- A `Market` row as the predictions route reads it. -/
structure Market where
  id : ℕ
  slug : String
  resolvedOutcome : Option String
  endDate : ℤ
deriving DecidableEq, Repr

/-- The `pYes` field of a request body as JavaScript sees it: absent, of a
non-number type, the number `NaN`, or an ordinary (finite) number. -/
inductive JsPYes where
  | missing
  | nonNumber
  | nan
  | num (q : ℚ)
deriving DecidableEq, Repr

/-- The route's guard `typeof pYes !== 'number' || pYes < 0 || pYes > 1`.
`typeof NaN` is `'number'` and both `NaN < 0` and `NaN > 1` are `false`, so
`NaN` is not rejected. -/
def pYesRejected : JsPYes → Bool
  | JsPYes.missing => true
  | JsPYes.nonNumber => true
  | JsPYes.nan => false
  | JsPYes.num q => decide (q < 0) || decide (1 < q)

/-- A `Prediction` row (the fields the POST handler writes; `id` and the
timestamps are generated by the database and play no role in the claims). -/
structure PredictionRow where
  agentId : ℕ
  marketId : ℕ
  pYes : JsPYes
  rationale : String
deriving DecidableEq, Repr

/-- The database state the handlers read and write. -/
structure Db where
  agents : List AgentRec
  markets : List Market
  predictions : List PredictionRow
deriving DecidableEq, Repr

/-- `getAgentFromToken` of auth.ts: the `X-Agent-Token` header (absent or
empty is falsy), then `prisma.agent.findUnique({ where: { token } })`. -/
def getAgentFromToken (agents : List AgentRec) (token : Option String) : Option AgentRec :=
  match token with
  | none => none
  | some t => if t = "" then none else agents.find? (fun a => a.token == t)

/-! ## `src/platform/src/app/api/predictions/route.ts` (POST) -/

/-- The classified outcomes of the POST handler: 401, 400, 404, 409 and 201
with the forecast record. -/
inductive PostPredictionResult where
  | authenticationError
  | validationError
  | notFoundError
  | conflictError
  | created (row : PredictionRow)
deriving DecidableEq, Repr

/-- `prisma.prediction.upsert` keyed on the unique `(agentId, marketId)`
index: update `pYes` and `rationale` on the existing row, create a new row
otherwise. -/
def upsertPrediction (preds : List PredictionRow) (agentId marketId : ℕ)
    (pYes : JsPYes) (rationale : String) : List PredictionRow :=
  if preds.any (fun r => r.agentId == agentId && r.marketId == marketId) then
    preds.map (fun r =>
      if r.agentId == agentId && r.marketId == marketId then
        { r with pYes := pYes, rationale := rationale }
      else r)
  else preds ++ [⟨agentId, marketId, pYes, rationale⟩]

/-- The POST handler: authenticate, validate `slug` (a non-empty string),
`pYes` and `rationale` (a non-empty string of at most 800 characters), find
the market, refuse a resolved or ended market with 409, otherwise upsert and
answer 201 with the stored record.  Returns the response together with the
database after the call. -/
def postPrediction (now : ℤ) (db : Db) (token : Option String)
    (slug : Option String) (pYes : JsPYes) (rationale : Option String) :
    PostPredictionResult × Db :=
  match getAgentFromToken db.agents token with
  | none => (PostPredictionResult.authenticationError, db)
  | some agent =>
    match slug with
    | none => (PostPredictionResult.validationError, db)
    | some s =>
      if s = "" then (PostPredictionResult.validationError, db)
      else if pYesRejected pYes then (PostPredictionResult.validationError, db)
      else
        match rationale with
        | none => (PostPredictionResult.validationError, db)
        | some r =>
          if r = "" then (PostPredictionResult.validationError, db)
          else if 800 < r.length then (PostPredictionResult.validationError, db)
          else
            match db.markets.find? (fun m => m.slug == s) with
            | none => (PostPredictionResult.notFoundError, db)
            | some market =>
              if market.resolvedOutcome.isSome then (PostPredictionResult.conflictError, db)
              else if market.endDate < now then (PostPredictionResult.conflictError, db)
              else
                (PostPredictionResult.created ⟨agent.id, market.id, pYes, r⟩,
                  { db with predictions :=
                      upsertPrediction db.predictions agent.id market.id pYes r })

/-- The response component of `postPrediction`. -/
def postOutcome (now : ℤ) (db : Db) (token : Option String)
    (slug : Option String) (pYes : JsPYes) (rationale : Option String) :
    PostPredictionResult :=
  (postPrediction now db token slug pYes rationale).1

/-- The request body fails the slug guard `!slug || typeof slug !== 'string'`. -/
def slugBad : Option String → Bool
  | none => true
  | some s => s == ""

/-- The request body fails the rationale guards (`!rationale || typeof
rationale !== 'string'`, then `rationale.length > 800`). -/
def rationaleBad : Option String → Bool
  | none => true
  | some r => r == "" || 800 < r.length

/-- Some local validation guard of the POST handler fires. -/
def requestInvalid (slug : Option String) (pYes : JsPYes) (rationale : Option String) : Prop :=
  slugBad slug = true ∨ pYesRejected pYes = true ∨ rationaleBad rationale = true

/-- The market the handler would look up: `findUnique({ where: { slug } })`. -/
def marketLookup (db : Db) (slug : Option String) : Option Market :=
  match slug with
  | none => none
  | some s => db.markets.find? (fun m => m.slug == s)

/-- A one-agent, one-open-market database (market `m1` ends at time 100 and
is unresolved; no predictions yet). -/
def exampleDb : Db :=
  { agents := [⟨1, "alice", "cpd_token_1", none⟩]
    markets := [⟨1, "m1", none, 100⟩]
    predictions := [] }

/-- **C3 (amended)** — the POST handler returns exactly one classified
outcome: 401 iff the token resolves to no agent; 400 iff (authenticated and)
a local guard fires — missing/empty slug, `pYes` not of number type or
comparing below 0 or above 1 (`NaN` passes), or missing/empty/over-800
rationale; 404 iff the guards pass and no market has the slug; 409 iff the
market exists but is resolved or past its end date; 201 otherwise. -/
theorem post_prediction_classification (now : ℤ) (db : Db) (token : Option String)
    (slug : Option String) (pYes : JsPYes) (rationale : Option String) :
    (postOutcome now db token slug pYes rationale = PostPredictionResult.authenticationError
      ↔ getAgentFromToken db.agents token = none)
    ∧ (postOutcome now db token slug pYes rationale = PostPredictionResult.validationError
      ↔ getAgentFromToken db.agents token ≠ none ∧ requestInvalid slug pYes rationale)
    ∧ (postOutcome now db token slug pYes rationale = PostPredictionResult.notFoundError
      ↔ getAgentFromToken db.agents token ≠ none ∧ ¬ requestInvalid slug pYes rationale
        ∧ marketLookup db slug = none)
    ∧ (postOutcome now db token slug pYes rationale = PostPredictionResult.conflictError
      ↔ getAgentFromToken db.agents token ≠ none ∧ ¬ requestInvalid slug pYes rationale
        ∧ ∃ m, marketLookup db slug = some m
            ∧ (m.resolvedOutcome ≠ none ∨ m.endDate < now))
    ∧ ((∃ row, postOutcome now db token slug pYes rationale = PostPredictionResult.created row)
      ↔ getAgentFromToken db.agents token ≠ none ∧ ¬ requestInvalid slug pYes rationale
        ∧ ∃ m, marketLookup db slug = some m
            ∧ m.resolvedOutcome = none ∧ ¬ m.endDate < now) := by
  unfold postOutcome postPrediction
  rcases hA : getAgentFromToken db.agents token with _ | agent
  · simp [hA]
  · rcases slug with _ | s
    · simp [hA, requestInvalid, slugBad, marketLookup]
    · by_cases hs : s = ""
      · simp [hA, hs, requestInvalid, slugBad, marketLookup]
      · rcases hp : pYesRejected pYes
        · rcases rationale with _ | r
          · simp [hA, hs, hp, requestInvalid, slugBad, rationaleBad, marketLookup]
          · by_cases hr : r = ""
            · simp [hA, hs, hp, hr, requestInvalid, slugBad, rationaleBad, marketLookup]
            · by_cases hlen : 800 < r.length
              · simp [hA, hs, hp, hr, hlen, requestInvalid, slugBad, rationaleBad,
                  marketLookup]
              · rcases hM : db.markets.find? (fun m => m.slug == s) with _ | market
                · simp [hA, hs, hp, hr, hlen, hM, requestInvalid, slugBad, rationaleBad,
                    marketLookup]
                · rcases hRes : market.resolvedOutcome with _ | outcome
                  · by_cases hEnd : market.endDate < now
                    · simp [hA, hs, hp, hr, hlen, hM, hRes, hEnd, requestInvalid,
                        slugBad, rationaleBad, marketLookup]
                    · simp [hA, hs, hp, hr, hlen, hM, hRes, hEnd, requestInvalid,
                        slugBad, rationaleBad, marketLookup]
                      exact le_of_not_lt hEnd
                  · simp [hA, hs, hp, hr, hlen, hM, hRes, requestInvalid, slugBad,
                      rationaleBad, marketLookup]
        · simp [hA, hs, hp, requestInvalid, slugBad, marketLookup]

/-- Counterexample to C3 as stated: with a valid token, an open market and a
valid rationale, the numeric value `NaN` — which is not a number lying in
`[0,1]` — is not answered with 400; the handler accepts it with 201. -/
theorem post_prediction_nan_not_rejected :
    postOutcome 0 exampleDb (some "cpd_token_1") (some "m1") JsPYes.nan (some "because")
      = PostPredictionResult.created ⟨1, 1, JsPYes.nan, "because"⟩
    ∧ (∀ q : ℚ, JsPYes.nan ≠ JsPYes.num q) := by
  refine ⟨by decide, ?_⟩
  intro q h
  cases h

/-- **C9** — `NaN` passes the `pYes` validation (`typeof NaN` is `'number'`
and `NaN < 0`, `NaN > 1` are both false), is no finite number in `[0,1]`,
and a full request carrying it is accepted with 201 and stored. -/
theorem nan_pYes_accepted_and_stored :
    pYesRejected JsPYes.nan = false
    ∧ (∀ q : ℚ, JsPYes.nan ≠ JsPYes.num q)
    ∧ postOutcome 0 exampleDb (some "cpd_token_1") (some "m1") JsPYes.nan (some "why not")
        = PostPredictionResult.created ⟨1, 1, JsPYes.nan, "why not"⟩
    ∧ (⟨1, 1, JsPYes.nan, "why not"⟩ : PredictionRow) ∈
        (postPrediction 0 exampleDb (some "cpd_token_1") (some "m1") JsPYes.nan
          (some "why not")).2.predictions := by
  refine ⟨rfl, ?_, by decide, by decide⟩
  intro q h
  cases h

/-- At most one prediction row per `(agentId, marketId)` pair: the invariant
the `Prediction_agentId_marketId_key` unique index enforces. -/
def PredKeyUnique (preds : List PredictionRow) : Prop :=
  preds.Pairwise (fun r s => ¬(r.agentId = s.agentId ∧ r.marketId = s.marketId))

instance (preds : List PredictionRow) : Decidable (PredKeyUnique preds) := by
  unfold PredKeyUnique
  infer_instance

/-- The upsert keeps the per-pair uniqueness invariant. -/
theorem upsertPrediction_unique (preds : List PredictionRow) (aid mid : ℕ)
    (p : JsPYes) (rat : String) (h : PredKeyUnique preds) :
    PredKeyUnique (upsertPrediction preds aid mid p rat) := by
  unfold upsertPrediction PredKeyUnique
  split
  · refine List.Pairwise.map _ ?_ h
    intro a b hab
    have ka : ∀ r : PredictionRow,
        ((if r.agentId == aid && r.marketId == mid then
            { r with pYes := p, rationale := rat } else r) : PredictionRow).agentId
          = r.agentId
        ∧ ((if r.agentId == aid && r.marketId == mid then
            { r with pYes := p, rationale := rat } else r) : PredictionRow).marketId
          = r.marketId := by
      intro r
      split <;> simp
    rw [(ka a).1, (ka a).2, (ka b).1, (ka b).2]
    exact hab
  · next hany =>
    rw [List.pairwise_append]
    refine ⟨h, List.pairwise_singleton _ _, ?_⟩
    intro a ha b hb
    simp only [List.mem_singleton] at hb
    subst hb
    intro hcontra
    exact hany (List.any_eq_true.mpr
      ⟨a, ha, by simp [hcontra.1, hcontra.2]⟩)

/-- The upserted record is present afterwards. -/
theorem upsertPrediction_mem (preds : List PredictionRow) (aid mid : ℕ)
    (p : JsPYes) (rat : String) :
    (⟨aid, mid, p, rat⟩ : PredictionRow) ∈ upsertPrediction preds aid mid p rat := by
  unfold upsertPrediction
  split
  · next hany =>
    obtain ⟨r0, hr0, hkey⟩ := List.any_eq_true.mp hany
    simp only [Bool.and_eq_true, beq_iff_eq] at hkey
    refine List.mem_map.mpr ⟨r0, hr0, ?_⟩
    rw [if_pos (by simp [hkey.1, hkey.2])]
    cases r0
    simp_all
  · exact List.mem_append_right _ (List.mem_singleton.mpr rfl)

/-- When a row with the same `(agentId, marketId)` already exists, the upsert
rewrites it in place: the table does not grow. -/
theorem upsertPrediction_length (preds : List PredictionRow) (aid mid : ℕ)
    (p : JsPYes) (rat : String)
    (hex : ∃ old ∈ preds, old.agentId = aid ∧ old.marketId = mid) :
    (upsertPrediction preds aid mid p rat).length = preds.length := by
  obtain ⟨old, hold, h1, h2⟩ := hex
  unfold upsertPrediction
  rw [if_pos (List.any_eq_true.mpr ⟨old, hold, by simp [h1, h2]⟩)]
  exact List.length_map _ _

/-- Case split on the POST handler: either it rejects the request and leaves
the database untouched, or it answers 201 and upserts exactly the returned
record. -/
theorem postPrediction_cases (now : ℤ) (db : Db) (token : Option String)
    (slug : Option String) (pYes : JsPYes) (rationale : Option String) :
    ((postPrediction now db token slug pYes rationale).2 = db
      ∧ ∀ row, (postPrediction now db token slug pYes rationale).1
          ≠ PostPredictionResult.created row)
    ∨ ∃ (agent : AgentRec) (market : Market) (r : String),
        getAgentFromToken db.agents token = some agent
        ∧ (postPrediction now db token slug pYes rationale).1
            = PostPredictionResult.created ⟨agent.id, market.id, pYes, r⟩
        ∧ (postPrediction now db token slug pYes rationale).2
            = { db with predictions :=
                  upsertPrediction db.predictions agent.id market.id pYes r } := by
  unfold postPrediction
  rcases hA : getAgentFromToken db.agents token with _ | agent
  · exact Or.inl ⟨rfl, by simp⟩
  · rcases slug with _ | s
    · exact Or.inl ⟨rfl, by simp⟩
    · dsimp only
      by_cases hs : s = ""
      · rw [if_pos hs]
        exact Or.inl ⟨rfl, by simp⟩
      · rw [if_neg hs]
        rcases hp : pYesRejected pYes
        · rw [if_neg (by simp [hp])]
          rcases rationale with _ | r
          · exact Or.inl ⟨rfl, by simp⟩
          · dsimp only
            by_cases hr : r = ""
            · rw [if_pos hr]
              exact Or.inl ⟨rfl, by simp⟩
            · rw [if_neg hr]
              by_cases hlen : 800 < r.length
              · rw [if_pos hlen]
                exact Or.inl ⟨rfl, by simp⟩
              · rw [if_neg hlen]
                rcases hM : db.markets.find? (fun m => m.slug == s) with _ | market
                · rw [hM]
                  exact Or.inl ⟨rfl, by simp⟩
                · rw [hM]
                  dsimp only
                  rcases hRes : market.resolvedOutcome with _ | outcome
                  · by_cases hEnd : market.endDate < now
                    · rw [if_neg (by simp [hRes]), if_pos hEnd]
                      exact Or.inl ⟨rfl, by simp⟩
                    · rw [if_neg (by simp [hRes]), if_neg hEnd]
                      exact Or.inr ⟨agent, market, r, rfl, rfl, rfl⟩
                  · rw [if_pos (by simp [hRes])]
                    exact Or.inl ⟨rfl, by simp⟩
        · rw [if_pos (by simp [hp])]
          exact Or.inl ⟨rfl, by simp⟩

/-- **C4** — the POST handler preserves "at most one forecast per
`(agent, market)` pair", and an accepted submission stores the returned
record; when a row for the pair already existed, the handler overwrites it
and the number of rows is unchanged. -/
theorem post_prediction_upsert_invariant (now : ℤ) (db : Db) (token : Option String)
    (slug : Option String) (pYes : JsPYes) (rationale : Option String)
    (h : PredKeyUnique db.predictions) :
    PredKeyUnique (postPrediction now db token slug pYes rationale).2.predictions
    ∧ ∀ row, (postPrediction now db token slug pYes rationale).1
          = PostPredictionResult.created row →
        row ∈ (postPrediction now db token slug pYes rationale).2.predictions
        ∧ ((∃ old ∈ db.predictions,
              old.agentId = row.agentId ∧ old.marketId = row.marketId) →
            (postPrediction now db token slug pYes rationale).2.predictions.length
              = db.predictions.length) := by
  rcases postPrediction_cases now db token slug pYes rationale with
    ⟨hdb, hno⟩ | ⟨agent, market, r, hA, hres, hdb⟩
  · rw [hdb]
    exact ⟨h, fun row hrow => absurd hrow (hno row)⟩
  · rw [hdb]
    refine ⟨upsertPrediction_unique _ _ _ _ _ h, ?_⟩
    intro row hrow
    rw [hres] at hrow
    have : row = ⟨agent.id, market.id, pYes, r⟩ :=
      (PostPredictionResult.created.injEq _ _).mp hrow.symm
    subst this
    exact ⟨upsertPrediction_mem _ _ _ _ _,
      fun hex => upsertPrediction_length _ _ _ _ _ hex⟩

/-- A database holding one forecast of agent 1 on market 1. -/
def exampleDb2 : Db :=
  { agents := [⟨1, "alice", "cpd_token_1", none⟩]
    markets := [⟨1, "m1", none, 100⟩]
    predictions := [⟨1, 1, JsPYes.num (1/2), "old take"⟩] }

/-- Witness for C4: a second accepted submission on the same `(agent, market)`
pair overwrites the existing row and creates no second one. -/
theorem post_prediction_upsert_invariant_witness :
    PredKeyUnique (postPrediction 0 exampleDb2 (some "cpd_token_1") (some "m1")
        (JsPYes.num (3/10)) (some "new take")).2.predictions
    ∧ ∀ row, (postPrediction 0 exampleDb2 (some "cpd_token_1") (some "m1")
          (JsPYes.num (3/10)) (some "new take")).1
          = PostPredictionResult.created row →
        row ∈ (postPrediction 0 exampleDb2 (some "cpd_token_1") (some "m1")
          (JsPYes.num (3/10)) (some "new take")).2.predictions
        ∧ ((∃ old ∈ exampleDb2.predictions,
              old.agentId = row.agentId ∧ old.marketId = row.marketId) →
            (postPrediction 0 exampleDb2 (some "cpd_token_1") (some "m1")
              (JsPYes.num (3/10)) (some "new take")).2.predictions.length
              = exampleDb2.predictions.length) :=
  post_prediction_upsert_invariant 0 exampleDb2 (some "cpd_token_1") (some "m1")
    (JsPYes.num (3/10)) (some "new take") (by decide)

/-! ## `src/platform/src/app/api/agents/profile/route.ts` (PATCH) -/

/-- The `evmAddress` field of the PATCH body as JavaScript sees it: absent
(`undefined`), `null`, a string, or a value of some other type. -/
inductive JsEvm where
  | missing
  | null
  | str (s : String)
  | nonString
deriving DecidableEq, Repr

/-- A character of the `[a-fA-F0-9]` class. -/
def isHexDigit (c : Char) : Bool :=
  (('0' ≤ c) && (c ≤ '9')) || (('a' ≤ c) && (c ≤ 'f')) || (('A' ≤ c) && (c ≤ 'F'))

/-- The route's address test `/^0x[a-fA-F0-9]{40}$/.test(evmAddress)`:
the whole string is `0x` followed by exactly 40 hex digits. -/
def evmAddressValid (s : String) : Bool :=
  match s.data with
  | '0' :: 'x' :: rest => (rest.length == 40) && rest.all isHexDigit
  | _ => false

/-- The classified outcomes of the PATCH handler (the 500 catch-all is out of
scope). -/
inductive PatchProfileResult where
  | authenticationError
  | validationError
  | ok (agent : AgentRec)
deriving DecidableEq, Repr

/-- The PATCH handler: authenticate; when `evmAddress` is neither `null` nor
absent it must be a string matching the pattern, else 400; then
`prisma.agent.update` with `evmAddress === null ? null : evmAddress` — a
string sets the field, `null` clears it, and `undefined` (an absent field) is
skipped by Prisma, leaving the stored value unchanged.  Returns the response
and the agents table after the call. -/
def patchProfile (agents : List AgentRec) (token : Option String) (evmAddress : JsEvm) :
    PatchProfileResult × List AgentRec :=
  match getAgentFromToken agents token with
  | none => (PatchProfileResult.authenticationError, agents)
  | some agent =>
    let invalid :=
      match evmAddress with
      | JsEvm.str s => !evmAddressValid s
      | JsEvm.nonString => true
      | _ => false
    if invalid then (PatchProfileResult.validationError, agents)
    else
      let newAgents :=
        match evmAddress with
        | JsEvm.missing => agents
        | JsEvm.null =>
          agents.map (fun a => if a.id == agent.id then { a with evmAddress := none } else a)
        | JsEvm.str s =>
          agents.map (fun a => if a.id == agent.id then { a with evmAddress := some s } else a)
        | JsEvm.nonString => agents
      let updated := (newAgents.find? (fun a => a.id == agent.id)).getD agent
      (PatchProfileResult.ok updated, newAgents)

/-- The PATCH body values the route accepts: `null`, absent, or a string
matching the address pattern. -/
def evmAccepted : JsEvm → Bool
  | JsEvm.missing => true
  | JsEvm.null => true
  | JsEvm.str s => evmAddressValid s
  | JsEvm.nonString => false

/-- In the rewritten agents table, every row with the updated id carries the
new value. -/
theorem mem_map_update_evm (agents : List AgentRec) (aid : ℕ) (v : Option String) :
    ∀ b ∈ agents.map (fun a => if a.id == aid then { a with evmAddress := v } else a),
      b.id = aid → b.evmAddress = v := by
  intro b hb hid
  obtain ⟨a0, ha0, rfl⟩ := List.mem_map.mp hb
  by_cases h : (a0.id == aid) = true
  · simp [h]
  · rw [if_neg h] at hid ⊢
    exact absurd hid (by simpa using h)

/-- **C8 (amended)** — PATCH accepts `evmAddress` exactly when it is `null`,
absent, or a string matching `^0x[a-fA-F0-9]{40}$`; every other value is
answered with 400 and the table is unchanged.  A matching string replaces the
stored address and `null` clears it, but an absent field leaves the stored
address unchanged (Prisma skips an `undefined` field). -/
theorem patch_profile_validation (agents : List AgentRec) (token : Option String)
    (ev : JsEvm) :
    ((∃ a, (patchProfile agents token ev).1 = PatchProfileResult.ok a)
      ↔ (getAgentFromToken agents token).isSome = true ∧ evmAccepted ev = true)
    ∧ ((patchProfile agents token ev).1 = PatchProfileResult.validationError
      ↔ (getAgentFromToken agents token).isSome = true ∧ evmAccepted ev = false)
    ∧ ((patchProfile agents token ev).1 = PatchProfileResult.validationError →
        (patchProfile agents token ev).2 = agents)
    ∧ (ev = JsEvm.missing → (patchProfile agents token ev).2 = agents)
    ∧ (∀ agent, getAgentFromToken agents token = some agent → ev = JsEvm.null →
        ∀ b ∈ (patchProfile agents token ev).2, b.id = agent.id → b.evmAddress = none)
    ∧ (∀ agent s, getAgentFromToken agents token = some agent → ev = JsEvm.str s →
        evmAddressValid s = true →
        ∀ b ∈ (patchProfile agents token ev).2, b.id = agent.id →
          b.evmAddress = some s) := by
  rcases hA : getAgentFromToken agents token with _ | agent
  · refine ⟨by simp [patchProfile, hA], by simp [patchProfile, hA], ?_, ?_, ?_, ?_⟩
    · intro hrow
      simp [patchProfile, hA] at hrow
    · intro hmiss
      simp [patchProfile, hA]
    · intro agent hsome
      cases hsome
    · intro agent s hsome
      cases hsome
  · cases ev with
    | missing =>
      refine ⟨by simp [patchProfile, hA, evmAccepted], by simp [patchProfile, hA, evmAccepted],
        ?_, ?_, ?_, ?_⟩
      · intro hrow
        simp [patchProfile, hA] at hrow
      · intro hmiss
        simp [patchProfile, hA]
      · intro agent2 hsome hev
        cases hev
      · intro agent2 s hsome hev
        cases hev
    | null =>
      refine ⟨by simp [patchProfile, hA, evmAccepted], by simp [patchProfile, hA, evmAccepted],
        ?_, ?_, ?_, ?_⟩
      · intro hrow
        simp [patchProfile, hA] at hrow
      · intro hmiss
        cases hmiss
      · intro agent2 hsome hev
        cases hsome
        have h2 : (patchProfile agents token JsEvm.null).2
            = agents.map (fun a => if a.id == agent.id then { a with evmAddress := none } else a) := by
          simp [patchProfile, hA]
        rw [h2]
        exact mem_map_update_evm agents agent.id none
      · intro agent2 s hsome hev
        cases hev
    | str s =>
      rcases hv : evmAddressValid s
      · refine ⟨by simp [patchProfile, hA, evmAccepted, hv],
          by simp [patchProfile, hA, evmAccepted, hv], ?_, ?_, ?_, ?_⟩
        · intro hrow
          simp [patchProfile, hA, hv]
        · intro hmiss
          cases hmiss
        · intro agent2 hsome hev
          cases hev
        · intro agent2 s2 hsome hev hv2
          cases hev
          rw [hv2] at hv
          cases hv
      · refine ⟨by simp [patchProfile, hA, evmAccepted, hv],
          by simp [patchProfile, hA, evmAccepted, hv], ?_, ?_, ?_, ?_⟩
        · intro hrow
          simp [patchProfile, hA, hv] at hrow
        · intro hmiss
          cases hmiss
        · intro agent2 hsome hev
          cases hev
        · intro agent2 s2 hsome hev hv2
          cases hsome
          cases hev
          have h2 : (patchProfile agents token (JsEvm.str s)).2
              = agents.map (fun a => if a.id == agent.id then { a with evmAddress := some s } else a) := by
            simp [patchProfile, hA, hv]
          rw [h2]
          exact mem_map_update_evm agents agent.id (some s)
    | nonString =>
      refine ⟨by simp [patchProfile, hA, evmAccepted], by simp [patchProfile, hA, evmAccepted],
        ?_, ?_, ?_, ?_⟩
      · intro hrow
        simp [patchProfile, hA]
      · intro hmiss
        cases hmiss
      · intro agent2 hsome hev
        cases hev
      · intro agent2 s hsome hev
        cases hev

/-- An agent whose stored payout address is set. -/
def agentX : AgentRec :=
  ⟨1, "alice", "cpd_token_1", some "0xaaaaaaaaaaaaaaaaaaaaaaaaaaaaaaaaaaaaaaaa"⟩

/-- Counterexample to C8 as stated: a request with the `evmAddress` field
absent is accepted, but it does not clear the stored address — the agent row
keeps its previous value. -/
theorem patch_profile_missing_does_not_clear :
    (patchProfile [agentX] (some "cpd_token_1") JsEvm.missing).1 = PatchProfileResult.ok agentX
    ∧ (patchProfile [agentX] (some "cpd_token_1") JsEvm.missing).2.map
        (fun a => a.evmAddress) = [some "0xaaaaaaaaaaaaaaaaaaaaaaaaaaaaaaaaaaaaaaaa"]
    ∧ agentX.evmAddress ≠ none := by
  refine ⟨by decide, by decide, by decide⟩

/-! ## The leaderboard sort and ranking -/

/-- The comparator the route passes to `sort`: agents with resolved
predictions first, then ascending rounded `brierScore`, then descending
`totalPredictions`.  A negative value puts `a` before `b`. -/
def leaderboardCompare (a b : AgentStat) : ℚ :=
  if 0 < a.resolvedPredictions ∧ b.resolvedPredictions = 0 then -1
  else if 0 < b.resolvedPredictions ∧ a.resolvedPredictions = 0 then 1
  else if a.brierScore ≠ b.brierScore then a.brierScore - b.brierScore
  else (b.totalPredictions : ℚ) - (a.totalPredictions : ℚ)

/-- `a` sorts no later than `b` under the route's comparator.  JavaScript's
`sort` and insertion sort are both stable, so sorting by this total preorder
models the route's call. -/
def leaderLE (a b : AgentStat) : Prop := leaderboardCompare a b ≤ 0

instance : DecidableRel leaderLE :=
  fun a b => inferInstanceAs (Decidable (leaderboardCompare a b ≤ 0))

/-- The comparator's leading key: `0` for an agent with at least one resolved
prediction, `1` otherwise. -/
def hasResolvedGroup (s : AgentStat) : ℕ :=
  if 0 < s.resolvedPredictions then 0 else 1

/-- The comparator orders lexicographically by (group, brierScore,
descending totalPredictions). -/
theorem leaderLE_iff (a b : AgentStat) :
    leaderLE a b ↔
      (hasResolvedGroup a < hasResolvedGroup b
        ∨ (hasResolvedGroup a = hasResolvedGroup b
            ∧ (a.brierScore < b.brierScore
              ∨ (a.brierScore = b.brierScore
                  ∧ b.totalPredictions ≤ a.totalPredictions)))) := by
  unfold leaderLE leaderboardCompare hasResolvedGroup
  have inner : (if a.brierScore ≠ b.brierScore then a.brierScore - b.brierScore
      else (b.totalPredictions : ℚ) - (a.totalPredictions : ℚ)) ≤ 0
      ↔ (a.brierScore < b.brierScore
          ∨ (a.brierScore = b.brierScore
              ∧ b.totalPredictions ≤ a.totalPredictions)) := by
    by_cases hbr : a.brierScore = b.brierScore
    · rw [if_neg (by simp [hbr]), sub_nonpos, Nat.cast_le]
      simp [hbr]
    · rw [if_pos hbr, sub_nonpos]
      constructor
      · intro h
        exact Or.inl (lt_of_le_of_ne h hbr)
      · rintro (h | ⟨h, _⟩)
        · exact le_of_lt h
        · exact absurd h hbr
  by_cases ha : 0 < a.resolvedPredictions <;> by_cases hb : 0 < b.resolvedPredictions
  · rw [if_neg (by omega : ¬(0 < a.resolvedPredictions ∧ b.resolvedPredictions = 0)),
      if_neg (by omega : ¬(0 < b.resolvedPredictions ∧ a.resolvedPredictions = 0)),
      if_pos ha, if_pos hb]
    simpa only [lt_self_iff_false, false_or, true_and] using inner
  · rw [if_pos (by omega : 0 < a.resolvedPredictions ∧ b.resolvedPredictions = 0),
      if_pos ha, if_neg hb]
    norm_num
  · rw [if_neg (by omega : ¬(0 < a.resolvedPredictions ∧ b.resolvedPredictions = 0)),
      if_pos (by omega : 0 < b.resolvedPredictions ∧ a.resolvedPredictions = 0),
      if_neg ha, if_pos hb]
    norm_num
  · rw [if_neg (by omega : ¬(0 < a.resolvedPredictions ∧ b.resolvedPredictions = 0)),
      if_neg (by omega : ¬(0 < b.resolvedPredictions ∧ a.resolvedPredictions = 0)),
      if_neg ha, if_neg hb]
    simpa only [lt_self_iff_false, false_or, true_and] using inner

instance : IsTotal AgentStat leaderLE :=
  ⟨fun a b => by
    rw [leaderLE_iff, leaderLE_iff]
    rcases Nat.lt_trichotomy (hasResolvedGroup a) (hasResolvedGroup b) with h | h | h
    · exact Or.inl (Or.inl h)
    · rcases lt_trichotomy a.brierScore b.brierScore with hb | hb | hb
      · exact Or.inl (Or.inr ⟨h, Or.inl hb⟩)
      · rcases Nat.le_total b.totalPredictions a.totalPredictions with ht | ht
        · exact Or.inl (Or.inr ⟨h, Or.inr ⟨hb, ht⟩⟩)
        · exact Or.inr (Or.inr ⟨h.symm, Or.inr ⟨hb.symm, ht⟩⟩)
      · exact Or.inr (Or.inr ⟨h.symm, Or.inl hb⟩)
    · exact Or.inr (Or.inl h)⟩

instance : IsTrans AgentStat leaderLE :=
  ⟨fun a b c hab hbc => by
    rw [leaderLE_iff] at hab hbc ⊢
    rcases hab with h1 | ⟨h1, h2⟩ <;> rcases hbc with g1 | ⟨g1, g2⟩
    · exact Or.inl (h1.trans g1)
    · exact Or.inl (g1 ▸ h1)
    · exact Or.inl (h1 ▸ g1)
    · refine Or.inr ⟨h1.trans g1, ?_⟩
      rcases h2 with h2 | ⟨h2, h3⟩ <;> rcases g2 with g2 | ⟨g2, g3⟩
      · exact Or.inl (h2.trans g2)
      · exact Or.inl (g2 ▸ h2)
      · exact Or.inl (h2 ▸ g2)
      · exact Or.inr ⟨h2.trans g2, le_trans g3 h3⟩⟩

/-- The ranked leaderboard of the GET handler: build the stats, keep agents
with `totalPredictions > 0`, sort by the comparator, and attach
`rank = index + 1`. -/
def rankedLeaderboard (agents : List AgentRow) : List (AgentStat × ℕ) :=
  ((((agents.map agentStat).filter
      (fun s => decide (0 < s.totalPredictions))).insertionSort leaderLE).enum).map
    (fun p => (p.2, p.1 + 1))

/-- The stats column of the ranked output. -/
def rankedStats (agents : List AgentRow) : List AgentStat :=
  (rankedLeaderboard agents).map Prod.fst

theorem rankedStats_eq_sort (agents : List AgentRow) :
    rankedStats agents =
      ((agents.map agentStat).filter
          (fun s => decide (0 < s.totalPredictions))).insertionSort leaderLE := by
  unfold rankedStats rankedLeaderboard
  rw [List.map_map]
  exact List.enum_map_snd _

/-- **C1 (amended)** — the ranking keeps exactly the agents with
`totalPredictions > 0` (as a permutation of the filtered stats); it is
ordered by the comparator — agents with at least one resolved prediction
first, then ascending `brierScore` with ties broken by higher
`totalPredictions` — so `brierScore` is non-decreasing within each of the two
groups, though not across them; and the ranks are `1..N` in order. -/
theorem leaderboard_ranking (agents : List AgentRow) :
    (rankedStats agents).Perm
        ((agents.map agentStat).filter (fun s => decide (0 < s.totalPredictions)))
    ∧ (rankedStats agents).Pairwise leaderLE
    ∧ (rankedStats agents).Pairwise
        (fun a b => hasResolvedGroup a = hasResolvedGroup b →
          a.brierScore ≤ b.brierScore)
    ∧ (rankedLeaderboard agents).map Prod.snd
        = List.range' 1 (rankedLeaderboard agents).length := by
  refine ⟨?_, ?_, ?_, ?_⟩
  · rw [rankedStats_eq_sort]
    exact List.perm_insertionSort leaderLE _
  · rw [rankedStats_eq_sort]
    exact List.sorted_insertionSort leaderLE _
  · rw [rankedStats_eq_sort]
    refine List.Pairwise.imp ?_ (List.sorted_insertionSort leaderLE _)
    intro a b hab hg
    rcases (leaderLE_iff a b).mp hab with h | ⟨_, h | ⟨h, _⟩⟩
    · omega
    · exact le_of_lt h
    · exact le_of_eq h
  · unfold rankedLeaderboard
    rw [List.map_map, List.length_map, List.enum_length]
    have h1 : ∀ l : List AgentStat,
        l.enum.map (Prod.snd ∘ fun p : ℕ × AgentStat => (p.2, p.1 + 1))
          = (l.enum.map Prod.fst).map (fun i => i + 1) := by
      intro l
      rw [List.map_map]
      rfl
    rw [h1, List.enum_map_fst, List.range'_eq_map_range]
    apply List.map_congr_left
    intro i _
    omega

/-- **C2 (amended)** — an agent with `totalPredictions > 0` is ranked even
when it has zero resolved forecasts; such agents are merely sorted after
every agent that has at least one resolved forecast (their default
`brierScore` of 0.25 participates in the ordering within that trailing
group). -/
theorem leaderboard_keeps_zero_resolved_agents (agents : List AgentRow) :
    (∀ s ∈ agents.map agentStat, 0 < s.totalPredictions → s ∈ rankedStats agents)
    ∧ (rankedStats agents).Pairwise
        (fun a b => a.resolvedPredictions = 0 → b.resolvedPredictions = 0) := by
  constructor
  · intro s hs hpos
    rw [rankedStats_eq_sort, List.mem_insertionSort]
    exact List.mem_filter.mpr ⟨hs, by simpa using hpos⟩
  · rw [rankedStats_eq_sort]
    refine List.Pairwise.imp ?_ (List.sorted_insertionSort leaderLE _)
    intro a b hab h0
    have ha1 : hasResolvedGroup a = 1 := by
      unfold hasResolvedGroup
      simp [h0]
    by_cases hb : 0 < b.resolvedPredictions
    · have hb0 : hasResolvedGroup b = 0 := by
        unfold hasResolvedGroup
        simp [hb]
      rcases (leaderLE_iff a b).mp hab with h | ⟨h, _⟩ <;> omega
    · omega

/-- An agent whose single forecast is on a market that resolved Yes,
scoring a rounded Brier of 0.81. -/
def rowA : AgentRow := ⟨"a", "A", [⟨1/10, some "Yes"⟩]⟩

/-- An agent whose single forecast is on an unresolved market: one total
prediction, zero resolved ones, default Brier 0.25. -/
def rowB : AgentRow := ⟨"b", "B", [⟨9/10, none⟩]⟩

theorem jsRound_intCast (n : ℤ) : jsRound (n : ℚ) = n := by
  rw [jsRound]
  apply Int.floor_eq_iff.mpr
  constructor
  · linarith
  · linarith

theorem statA_eval : agentStat rowA = ⟨"a", "A", 81/100, 1, 1, 0⟩ := by
  have hres : resolvedOf rowA = [⟨1/10, some "Yes"⟩] := rfl
  have hbd : brierDataOf rowA = [⟨1/10, true⟩] := rfl
  have hraw : rawBrierOf rowA = 81/100 := by
    rw [rawBrierOf, hres, hbd]
    norm_num [calculateBrierContribution]
  have hacc : rawAccuracyOf rowA = 0 := by
    rw [rawAccuracyOf, hres, hbd]
    simp [calculateAccuracy]
    norm_num
  unfold agentStat
  congr 1
  · rw [hraw, show ((81:ℚ)/100 * 10000) = ((8100:ℤ) : ℚ) by norm_num, jsRound_intCast]
    norm_num
  · rw [hacc, show ((0:ℚ) * 100) = ((0:ℤ) : ℚ) by norm_num, jsRound_intCast]
    norm_num

theorem statB_eval : agentStat rowB = ⟨"b", "B", 1/4, 1, 0, 0⟩ := by
  have hres : resolvedOf rowB = [] := rfl
  have hraw : rawBrierOf rowB = 1/4 := by
    rw [rawBrierOf, hres]
    norm_num
  have hacc : rawAccuracyOf rowB = 0 := by
    rw [rawAccuracyOf, hres]
    norm_num
  unfold agentStat
  congr 1
  · rw [hraw, show ((1:ℚ)/4 * 10000) = ((2500:ℤ) : ℚ) by norm_num, jsRound_intCast]
    norm_num
  · rw [hacc, show ((0:ℚ) * 100) = ((0:ℤ) : ℚ) by norm_num, jsRound_intCast]
    norm_num

theorem ranked_eval : rankedLeaderboard [rowA, rowB]
    = [(⟨"a", "A", 81/100, 1, 1, 0⟩, 1), (⟨"b", "B", 1/4, 1, 0, 0⟩, 2)] := by
  have hle : leaderLE ⟨"a", "A", 81/100, 1, 1, 0⟩ ⟨"b", "B", 1/4, 1, 0, 0⟩ := by
    rw [leaderLE_iff]
    left
    norm_num [hasResolvedGroup]
  have hmap : [rowA, rowB].map agentStat
      = [⟨"a", "A", 81/100, 1, 1, 0⟩, ⟨"b", "B", 1/4, 1, 0, 0⟩] := by
    rw [List.map_cons, List.map_cons, List.map_nil, statA_eval, statB_eval]
  have hsorted : (([rowA, rowB].map agentStat).filter
        (fun s => decide (0 < s.totalPredictions))).insertionSort leaderLE
      = [⟨"a", "A", 81/100, 1, 1, 0⟩, ⟨"b", "B", 1/4, 1, 0, 0⟩] := by
    rw [hmap]
    show (if leaderLE ⟨"a", "A", 81/100, 1, 1, 0⟩ ⟨"b", "B", 1/4, 1, 0, 0⟩ then
        [(⟨"a", "A", 81/100, 1, 1, 0⟩ : AgentStat), ⟨"b", "B", 1/4, 1, 0, 0⟩]
      else [⟨"b", "B", 1/4, 1, 0, 0⟩, ⟨"a", "A", 81/100, 1, 1, 0⟩]) = _
    rw [if_pos hle]
  unfold rankedLeaderboard
  rw [hsorted]
  rfl

/-- Counterexample to C1 as stated: the ranking is not ascending in
`brierScore` — the agent with a resolved forecast and rounded Brier 0.81 is
ranked 1, ahead of the zero-resolved agent with default Brier 0.25 at rank 2,
so the earlier ranked agent has the strictly larger Brier score. -/
theorem leaderboard_not_sorted_by_brier_alone :
    (rankedStats [rowA, rowB]).map (fun s => s.brierScore) = [81/100, 1/4]
    ∧ ¬((81:ℚ)/100 ≤ 1/4)
    ∧ (rankedLeaderboard [rowA, rowB]).map Prod.snd = [1, 2] := by
  refine ⟨?_, by norm_num, ?_⟩
  · rw [rankedStats, ranked_eval]
    rfl
  · rw [ranked_eval]
    rfl

/-- Counterexample to C2 as stated: agent `b` has zero resolved forecasts
and a nonzero `totalPredictions`, yet appears in the ranked output (in last
place), instead of being absent from it. -/
theorem leaderboard_contains_zero_resolved_agent :
    (rankedStats [rowA, rowB]).map
        (fun s => (s.agentId, s.resolvedPredictions, s.totalPredictions))
      = [("a", 1, 1), ("b", 0, 1)] := by
  rw [rankedStats, ranked_eval]
  rfl

end Clawdpredict
